import Mathlib

/-!
Shallow embedding of the LRU load-balancing broker `examples/Python/lbbroker2.py`
(the `main` event loop), together with proofs of the spec's claims about it.

Message frames are modelled as strings (the Python code works with byte
strings; all comparisons are plain equality, so `String` is a faithful
stand-in).  The broker's mutable loop variables (`available_workers`,
`workers_list`, `client_nbr`) become a `BrokerState`; the `break` that exits
the loop is modelled by a `running` flag.  Python runtime failures
(`assert`, list index errors, unpacking errors) become `Except` errors.
-/

namespace LbBroker

/-- `NBR_CLIENTS = 10` from the source. -/
def NBR_CLIENTS : Nat := 10

/-- `NBR_WORKERS = 3` from the source. -/
def NBR_WORKERS : Nat := 3

/-- The literal readiness token `b"READY"`. -/
def READY : String := "READY"

/-- Errors the Python loop can raise: `assert` failures, list index errors
(`message[i]` out of range, `pop` on an empty list), and unpacking errors
(`[a, b, c] = ...` with the wrong number of elements). -/
inductive BrokerError where
  | assertionError
  | indexError
  | valueError
deriving DecidableEq, Repr

/-- The broker's loop state: the counter `available_workers`, the idle
worker queue `workers_list` (tail = most recently idled), the remaining
reply counter `client_nbr`, and a flag standing for "the loop has not
executed `break`". -/
structure BrokerState where
  available_workers : Int
  workers_list : List String
  client_nbr : Int
  running : Bool
deriving DecidableEq, Repr

/-- A send performed by the broker on one of its two sockets. -/
inductive Send where
  | toFrontend (frames : List String)
  | toBackend (frames : List String)
deriving DecidableEq, Repr

/-- The two sockets of the broker. -/
inductive Socket where
  | frontend
  | backend
deriving DecidableEq, Repr

/-- The poller registration performed before the loop: the source registers
both sockets once (`poller.register(backend, zmq.POLLIN)` and
`poller.register(frontend, zmq.POLLIN)`) and never unregisters either, so
the watched set is the same in every state. -/
def pollSet (_s : BrokerState) : List Socket :=
  [Socket.backend, Socket.frontend]

/-- Backend branch of the loop body (lines 114-147): assert
`available_workers < NBR_WORKERS`, append `message[0]` to the worker list,
assert `message[1]` is empty, and if `message[2]` differs from `b"READY"`
assert `message[3]` empty and forward `[client_addr, b"", message[4]]` to
the frontend, decrementing `client_nbr` and breaking at zero. -/
def handleBackend (message : List String) (s : BrokerState) :
    Except BrokerError (BrokerState × List Send) :=
  if s.available_workers < (NBR_WORKERS : Int) then
    match message.get? 0 with
    | none => .error .indexError
    | some worker_addr =>
      let s1 : BrokerState :=
        { s with available_workers := s.available_workers + 1
                 workers_list := s.workers_list ++ [worker_addr] }
      match message.get? 1 with
      | none => .error .indexError
      | some empty =>
        if empty = "" then
          match message.get? 2 with
          | none => .error .indexError
          | some client_addr =>
            if client_addr ≠ READY then
              match message.get? 3 with
              | none => .error .indexError
              | some empty2 =>
                if empty2 = "" then
                  match message.get? 4 with
                  | none => .error .indexError
                  | some reply =>
                    .ok ({ s1 with
                             client_nbr := s1.client_nbr - 1
                             running := if s1.client_nbr - 1 = 0 then false
                                        else s1.running },
                         [Send.toFrontend [client_addr, "", reply]])
                else .error .assertionError
            else .ok (s1, [])
        else .error .assertionError
  else .error .assertionError

/-- Frontend branch of the loop body (lines 152-165): unpack
`[client_addr, empty, request]` (a wrong frame count raises), assert the
delimiter empty, pop the tail of `workers_list` (`list.pop()` removes the
last element) and send the five-frame dispatch on the backend. -/
def handleFrontend (message : List String) (s : BrokerState) :
    Except BrokerError (BrokerState × List Send) :=
  match message with
  | [client_addr, empty, request] =>
    if empty = "" then
      match s.workers_list.getLast? with
      | none => .error .indexError
      | some worker_id =>
        .ok ({ s with available_workers := s.available_workers - 1
                      workers_list := s.workers_list.dropLast },
             [Send.toBackend [worker_id, "", client_addr, "", request]])
    else .error .assertionError
  | _ => .error .valueError

/-- An event delivered by the poller: a message readable on one socket. -/
inductive Event where
  | backendMsg (frames : List String)
  | frontendMsg (frames : List String)
deriving DecidableEq, Repr

/-- One handling step of the event loop.  A backend message is always
processed; a frontend message is processed only under the guard
`available_workers > 0` (line 150).  After the loop has broken out
(`running = false`) no message is processed at all. -/
def step (s : BrokerState) (e : Event) :
    Except BrokerError (BrokerState × List Send) :=
  if s.running then
    match e with
    | .backendMsg m => handleBackend m s
    | .frontendMsg m =>
      if 0 < s.available_workers then handleFrontend m s
      else .ok (s, [])
  else .ok (s, [])

/-- The state on entry to the loop: `available_workers = 0`,
`workers_list = []`, `client_nbr = NBR_CLIENTS`. -/
def initialState : BrokerState :=
  { available_workers := 0
    workers_list := []
    client_nbr := (NBR_CLIENTS : Int)
    running := true }

/-- States the event loop can reach from its initial state by successfully
processed events. -/
inductive Reachable : BrokerState → Prop where
  | init : Reachable initialState
  | next {s s' : BrokerState} {e : Event} {outs : List Send} :
      Reachable s → step s e = .ok (s', outs) → Reachable s'

/-! ### Shape lemmas for the two handlers -/

/-- Whenever the backend branch completes without an error it has checked
`available_workers < NBR_WORKERS`, incremented the counter and appended
`message[0]` to the tail of the worker list; it never sends on the
backend. -/
theorem handleBackend_ok {m : List String} {s s' : BrokerState} {outs : List Send}
    (h : handleBackend m s = .ok (s', outs)) :
    s.available_workers < (NBR_WORKERS : Int) ∧
    ∃ w, m.get? 0 = some w ∧
      s'.available_workers = s.available_workers + 1 ∧
      s'.workers_list = s.workers_list ++ [w] ∧
      (∀ d, Send.toBackend d ∉ outs) := by
  unfold handleBackend at h
  split at h
  case isFalse => exact absurd h (by simp)
  rename_i hlt
  refine ⟨hlt, ?_⟩
  split at h
  · exact absurd h (by simp)
  rename_i w hw
  refine ⟨w, hw, ?_⟩
  split at h
  · exact absurd h (by simp)
  split at h
  case isFalse => exact absurd h (by simp)
  split at h
  · exact absurd h (by simp)
  split at h
  case isTrue =>
    split at h
    · exact absurd h (by simp)
    split at h
    case isFalse => exact absurd h (by simp)
    split at h
    · exact absurd h (by simp)
    injection h with h
    injection h with hA hB
    subst hA; subst hB
    refine ⟨rfl, rfl, by simp⟩
  case isFalse =>
    injection h with h
    injection h with hA hB
    subst hA; subst hB
    refine ⟨rfl, rfl, by simp⟩

/-- Whenever the frontend branch completes without an error, the message
was a well-formed three-frame request, the worker list was non-empty, and
the result pops the tail of the list and dispatches the five-frame message
to that worker on the backend. -/
theorem handleFrontend_ok {m : List String} {s s' : BrokerState} {outs : List Send}
    (h : handleFrontend m s = .ok (s', outs)) :
    ∃ c req w, m = [c, "", req] ∧ s.workers_list.getLast? = some w ∧
      s' = { s with available_workers := s.available_workers - 1
                    workers_list := s.workers_list.dropLast } ∧
      outs = [Send.toBackend [w, "", c, "", req]] := by
  unfold handleFrontend at h
  split at h
  case h_2 => exact absurd h (by simp)
  rename_i c emp req
  split at h
  case isFalse => exact absurd h (by simp)
  rename_i hemp
  subst hemp
  split at h
  · exact absurd h (by simp)
  rename_i w hw
  injection h with h
  injection h with hA hB
  subst hA; subst hB
  exact ⟨c, req, w, rfl, hw, rfl, rfl⟩

/-- After the loop has broken out, a step processes nothing. -/
theorem step_done {s : BrokerState} {e : Event} (h : s.running = false) :
    step s e = .ok (s, []) := by
  simp [step, h]

/-- While running, a backend event is handled by the backend branch. -/
theorem step_backend {s : BrokerState} {m : List String} (h : s.running = true) :
    step s (.backendMsg m) = handleBackend m s := by
  simp [step, h]

/-- While running with a positive worker counter, a frontend event is
handled by the frontend branch. -/
theorem step_frontend_pos {s : BrokerState} {m : List String}
    (h : s.running = true) (hp : 0 < s.available_workers) :
    step s (.frontendMsg m) = handleFrontend m s := by
  simp [step, h, hp]

/-- While running with a non-positive worker counter, a frontend event is
left unprocessed (the guard on line 150 skips the branch). -/
theorem step_frontend_nonpos {s : BrokerState} {m : List String}
    (h : s.running = true) (hp : ¬ 0 < s.available_workers) :
    step s (.frontendMsg m) = .ok (s, []) := by
  simp [step, h, hp]

/-- A list with a last element is not empty. -/
theorem ne_nil_of_getLast?_eq_some {l : List String} {w : String}
    (h : l.getLast? = some w) : l ≠ [] := by
  intro he; subst he; simp at h

/-- The counter `available_workers` tracks the length of `workers_list`
in every reachable state. -/
theorem counter_eq_of_reachable {s : BrokerState} (h : Reachable s) :
    s.available_workers = (s.workers_list.length : Int) := by
  induction h with
  | init => simp [initialState]
  | next hr hstep ih =>
    rename_i s s' e outs
    by_cases hrun : s.running
    case neg =>
      rw [step_done (by simpa using hrun)] at hstep
      injection hstep with hstep
      injection hstep with hA hB
      subst hA; exact ih
    cases e with
    | backendMsg m =>
      rw [step_backend hrun] at hstep
      obtain ⟨-, w, -, havail, hlist, -⟩ := handleBackend_ok hstep
      rw [havail, hlist, ih]
      simp
    | frontendMsg m =>
      by_cases hpos : 0 < s.available_workers
      case neg =>
        rw [step_frontend_nonpos hrun hpos] at hstep
        injection hstep with hstep
        injection hstep with hA hB
        subst hA; exact ih
      rw [step_frontend_pos hrun hpos] at hstep
      obtain ⟨c, req, w, -, hlast, hs', -⟩ := handleFrontend_ok hstep
      have hne : s.workers_list ≠ [] := ne_nil_of_getLast?_eq_some hlast
      have hlen : 1 ≤ s.workers_list.length := by
        cases hl : s.workers_list with
        | nil => exact absurd hl hne
        | cons a t => simp
      subst hs'
      simp only [List.length_dropLast]
      omega

/-- Evaluation of the backend branch on a message whose third frame is the
READY token: the worker is appended, nothing is sent, the reply counter and
the running flag are untouched — whatever trailing frames follow. -/
theorem handleBackend_ready (s : BrokerState) (w : String) (rest : List String)
    (hlt : s.available_workers < (NBR_WORKERS : Int)) :
    handleBackend (w :: "" :: READY :: rest) s =
      .ok ({ s with available_workers := s.available_workers + 1
                    workers_list := s.workers_list ++ [w] }, []) := by
  simp [handleBackend, hlt]

/-- Evaluation of the backend branch on a well-formed worker reply: the
worker is appended, the reply is forwarded as three frames on the frontend,
the reply counter is decremented, and the loop breaks when it reaches
zero. -/
theorem handleBackend_reply (s : BrokerState) (w c r : String)
    (hlt : s.available_workers < (NBR_WORKERS : Int)) (hc : c ≠ READY) :
    handleBackend [w, "", c, "", r] s =
      .ok ({ s with available_workers := s.available_workers + 1
                    workers_list := s.workers_list ++ [w]
                    client_nbr := s.client_nbr - 1
                    running := if s.client_nbr - 1 = 0 then false else s.running },
           [Send.toFrontend [c, "", r]]) := by
  simp [handleBackend, hlt, hc]

/-- Evaluation of the frontend branch on a well-formed request when the
worker list has a last element: that tail element is popped and the
five-frame dispatch is sent on the backend. -/
theorem handleFrontend_eval (s : BrokerState) (c r w : String)
    (hlast : s.workers_list.getLast? = some w) :
    handleFrontend [c, "", r] s =
      .ok ({ s with available_workers := s.available_workers - 1
                    workers_list := s.workers_list.dropLast },
           [Send.toBackend [w, "", c, "", r]]) := by
  simp [handleFrontend, hlast]

/-! ### The broker composed with protocol-following workers

To state the queue invariants, the broker is run against an environment of
workers that follow the backend protocol: each worker sends a single READY
at startup and thereafter exactly one reply per dispatch it has received.
The ghost counters below record how many READYs and replies the broker has
processed from each worker and how many dispatches it has sent to each. -/

/-- Broker state together with ghost per-worker message counters. -/
structure SysState where
  broker : BrokerState
  readySent : String → Nat
  replySent : String → Nat
  dispatched : String → Nat

/-- Increment a ghost counter at one worker. -/
def bump (f : String → Nat) (w : String) : String → Nat :=
  fun x => if x = w then f x + 1 else f x

/-- Record, in the ghost counters, a backend message the broker is about to
process (nothing is recorded when the loop has already exited). -/
def recordBackend (σ : SysState) (e : Event) : SysState :=
  if σ.broker.running then
    match e with
    | .backendMsg (w :: _ :: f2 :: _) =>
      if f2 = READY then { σ with readySent := bump σ.readySent w }
      else { σ with replySent := bump σ.replySent w }
    | _ => σ
  else σ

/-- Record, in the ghost counters, the dispatch (if any) among the sends a
step produced. -/
def recordSends (σ : SysState) (outs : List Send) : SysState :=
  match outs with
  | [Send.toBackend (w :: _)] => { σ with dispatched := bump σ.dispatched w }
  | _ => σ

/-- One instrumented step: the broker takes its `step`, and the ghost
counters record the processed backend message and the emitted dispatch. -/
def sysStep (σ : SysState) (e : Event) : Except BrokerError SysState :=
  (step σ.broker e).map
    (fun p => { recordSends (recordBackend σ e) p.2 with broker := p.1 })

/-- The worker protocol, as a precondition on the next event: a backend
message comes from a worker in `W` and is either a first READY (no READY
from that worker was processed before) or a well-formed reply covered by an
outstanding dispatch to that worker.  Frontend events (client requests) are
unconstrained. -/
def eventOk (W : List String) (σ : SysState) (e : Event) : Prop :=
  match e with
  | .backendMsg m =>
      (∃ w, w ∈ W ∧ σ.readySent w = 0 ∧ m = [w, "", READY]) ∨
      (∃ w c r, w ∈ W ∧ c ≠ READY ∧ σ.replySent w < σ.dispatched w ∧
        m = [w, "", c, "", r])
  | .frontendMsg _ => True

/-- The initial instrumented state: broker at its initial state, no
messages recorded. -/
def initialSys : SysState :=
  { broker := initialState
    readySent := fun _ => 0
    replySent := fun _ => 0
    dispatched := fun _ => 0 }

/-- Instrumented states reachable by events that respect the worker
protocol for the worker set `W`. -/
inductive ValidReach (W : List String) : SysState → Prop where
  | init : ValidReach W initialSys
  | next {σ σ' : SysState} {e : Event} :
      ValidReach W σ → eventOk W σ e → sysStep σ e = .ok σ' → ValidReach W σ'

/-- The inductive invariant tying the queue to the ghost counters. -/
structure SysInv (W : List String) (σ : SysState) : Prop where
  counter_eq : σ.broker.available_workers = (σ.broker.workers_list.length : Int)
  count_eq : ∀ w, σ.broker.workers_list.count w + σ.dispatched w
      = σ.readySent w + σ.replySent w
  reply_le : ∀ w, σ.replySent w ≤ σ.dispatched w
  ready_le : ∀ w, σ.readySent w ≤ 1
  mem_W : ∀ x ∈ σ.broker.workers_list, x ∈ W

/-- The invariant holds in every protocol-respecting reachable state. -/
theorem sysInv_of_validReach {W : List String} {σ : SysState}
    (h : ValidReach W σ) : SysInv W σ := by
  induction h with
  | init =>
    refine ⟨?_, ?_, ?_, ?_, ?_⟩ <;> simp [initialSys, initialState]
  | next hr hok hstep ih =>
    rename_i σ σ' e
    by_cases hrun : σ.broker.running
    case neg =>
      rw [sysStep, step_done (by simpa using hrun)] at hstep
      simp [Except.map, recordBackend, hrun, recordSends] at hstep
      exact hstep ▸ ih
    cases e with
    | backendMsg m =>
      rcases hok with ⟨w, hwW, hready0, rfl⟩ | ⟨w, c, r, hwW, hc, hrd, rfl⟩
      · -- READY announcement
        by_cases hlt : σ.broker.available_workers < (NBR_WORKERS : Int)
        case neg =>
          rw [sysStep, step_backend hrun, handleBackend, if_neg hlt] at hstep
          simp [Except.map] at hstep
        rw [sysStep, step_backend hrun,
          show handleBackend [w, "", READY] σ.broker =
            handleBackend (w :: "" :: READY :: []) σ.broker from rfl,
          handleBackend_ready _ _ _ hlt] at hstep
        simp [Except.map, recordBackend, hrun, recordSends] at hstep
        subst hstep
        refine ⟨?_, ?_, ?_, ?_, ?_⟩
        · simp [ih.counter_eq]
        · intro x
          have hce := ih.count_eq x
          by_cases hx : x = w
          · subst hx
            simp [List.count_append, bump]
            omega
          · simp [List.count_append, bump, hx]
            omega
        · exact ih.reply_le
        · intro x
          by_cases hx : x = w
          · subst hx; simp [bump, hready0]
          · simpa [bump, hx] using ih.ready_le x
        · intro x hx
          rcases List.mem_append.mp hx with hx | hx
          · exact ih.mem_W x hx
          · simp at hx; exact hx ▸ hwW
      · -- worker reply
        by_cases hlt : σ.broker.available_workers < (NBR_WORKERS : Int)
        case neg =>
          rw [sysStep, step_backend hrun, handleBackend, if_neg hlt] at hstep
          simp [Except.map] at hstep
        rw [sysStep, step_backend hrun, handleBackend_reply _ _ _ _ hlt hc] at hstep
        simp [Except.map, recordBackend, hrun, recordSends, hc] at hstep
        subst hstep
        refine ⟨?_, ?_, ?_, ?_, ?_⟩
        · simp [ih.counter_eq]
        · intro x
          have hce := ih.count_eq x
          by_cases hx : x = w
          · subst hx
            simp [List.count_append, bump]
            omega
          · simp [List.count_append, bump, hx]
            omega
        · intro x
          by_cases hx : x = w
          · subst hx; simp [bump]; omega
          · simpa [bump, hx] using ih.reply_le x
        · exact ih.ready_le
        · intro x hx
          rcases List.mem_append.mp hx with hx | hx
          · exact ih.mem_W x hx
          · simp at hx; exact hx ▸ hwW
    | frontendMsg m =>
      by_cases hpos : 0 < σ.broker.available_workers
      case neg =>
        rw [sysStep, step_frontend_nonpos hrun hpos] at hstep
        simp [Except.map, recordBackend, hrun, recordSends] at hstep
        exact hstep ▸ ih
      rw [sysStep, step_frontend_pos hrun hpos] at hstep
      cases hh : handleFrontend m σ.broker with
      | error er => rw [hh] at hstep; simp [Except.map] at hstep
      | ok p =>
        obtain ⟨c, req, w, hm, hlast, hb', houts⟩ := handleFrontend_ok hh
        rw [hh] at hstep
        simp only [Except.map, Except.ok.injEq] at hstep
        rw [houts] at hstep
        have hne : σ.broker.workers_list ≠ [] := ne_nil_of_getLast?_eq_some hlast
        have hw : σ.broker.workers_list.getLast hne = w := by
          rw [List.getLast?_eq_getLast _ hne] at hlast
          exact Option.some.inj hlast
        have hsplit : σ.broker.workers_list.dropLast ++ [w] = σ.broker.workers_list := by
          rw [← hw]; exact List.dropLast_append_getLast hne
        have hlen : 1 ≤ σ.broker.workers_list.length := by
          cases hl : σ.broker.workers_list with
          | nil => exact absurd hl hne
          | cons a t => simp
        rw [hb'] at hstep
        simp [recordBackend, hrun, recordSends] at hstep
        subst hstep
        refine ⟨?_, ?_, ?_, ?_, ?_⟩
        · have := ih.counter_eq
          simp only [List.length_dropLast]
          omega
        · intro x
          have hce := ih.count_eq x
          rw [← hsplit, List.count_append] at hce
          by_cases hx : x = w
          · subst hx
            simp at hce
            simp [bump]
            omega
          · simp [hx] at hce
            simp [bump, hx]
            omega
        · intro x
          by_cases hx : x = w
          · subst hx; simp [bump]
            exact Nat.le_succ_of_le (ih.reply_le _)
          · simpa [bump, hx] using ih.reply_le x
        · exact ih.ready_le
        · intro x hx
          exact ih.mem_W x ((List.dropLast_sublist _).subset hx)

/-- The frontend branch cannot raise an index error (a pop from an empty
list) when the worker list is non-empty. -/
theorem handleFrontend_no_indexError {m : List String} {s : BrokerState}
    (hne : s.workers_list ≠ []) :
    handleFrontend m s ≠ .error .indexError := by
  unfold handleFrontend
  split
  · split
    · split
      · rename_i hnone
        exact absurd (List.getLast?_eq_none_iff.mp hnone) hne
      · simp
    · simp
  · simp

/-! ### The claims -/

/-- C9: in every reachable state of the event loop, the counter
`available_workers` equals the length of the list `workers_list`;
consequently the frontend branch, which is guarded by
`available_workers > 0`, never pops from an empty list (no frontend event
can produce an index error). -/
theorem counter_matches_list {s : BrokerState} (h : Reachable s) :
    s.available_workers = (s.workers_list.length : Int) ∧
    (0 < s.available_workers → s.workers_list ≠ []) ∧
    ∀ m, step s (.frontendMsg m) ≠ .error .indexError := by
  have hc := counter_eq_of_reachable h
  have hne : 0 < s.available_workers → s.workers_list ≠ [] := by
    intro hpos hnil
    rw [hc, hnil] at hpos
    simp at hpos
  refine ⟨hc, hne, ?_⟩
  intro m he
  by_cases hrun : s.running
  · by_cases hpos : 0 < s.available_workers
    · rw [step_frontend_pos hrun hpos] at he
      exact handleFrontend_no_indexError (hne hpos) he
    · rw [step_frontend_nonpos hrun hpos] at he
      simp at he
  · rw [step_done (by simpa using hrun)] at he
    simp at he

/-- C9 witness: a concrete reachable state (one READY processed) where the
counter is positive, evaluated. -/
theorem counter_matches_list_witness :
    (BrokerState.mk 1 ["Worker-0"] 10 true).available_workers =
      ((BrokerState.mk 1 ["Worker-0"] 10 true).workers_list.length : Int) ∧
    (BrokerState.mk 1 ["Worker-0"] 10 true).workers_list ≠ [] ∧
    step (BrokerState.mk 1 ["Worker-0"] 10 true)
        (.frontendMsg ["Client-0", "", "HELLO"]) ≠ .error .indexError := by
  have h := counter_matches_list (s := BrokerState.mk 1 ["Worker-0"] 10 true)
    (Reachable.next Reachable.init
      (show step initialState (.backendMsg ["Worker-0", "", "READY"]) =
        .ok (BrokerState.mk 1 ["Worker-0"] 10 true, []) from rfl))
  exact ⟨h.1, h.2.1 (by simp), h.2.2 ["Client-0", "", "HELLO"]⟩

/-- C3: in every reachable state, a step of the event loop sends a
dispatch message on the backend only if the idle worker queue was
non-empty immediately prior, and the send removes exactly one worker from
the queue. -/
theorem no_dispatch_without_idle_worker {s s' : BrokerState} {e : Event}
    {outs : List Send} {d : List String} (_hr : Reachable s)
    (hstep : step s e = .ok (s', outs)) (hd : Send.toBackend d ∈ outs) :
    s.workers_list ≠ [] ∧ s'.workers_list.length + 1 = s.workers_list.length := by
  by_cases hrun : s.running
  case neg =>
    rw [step_done (by simpa using hrun)] at hstep
    injection hstep with hstep
    injection hstep with hA hB
    subst hB
    simp at hd
  cases e with
  | backendMsg m =>
    rw [step_backend hrun] at hstep
    obtain ⟨-, w, -, -, -, hnb⟩ := handleBackend_ok hstep
    exact absurd hd (hnb d)
  | frontendMsg m =>
    by_cases hpos : 0 < s.available_workers
    case neg =>
      rw [step_frontend_nonpos hrun hpos] at hstep
      injection hstep with hstep
      injection hstep with hA hB
      subst hB
      simp at hd
    rw [step_frontend_pos hrun hpos] at hstep
    obtain ⟨c, req, w, hm, hlast, hs', houts⟩ := handleFrontend_ok hstep
    have hne := ne_nil_of_getLast?_eq_some hlast
    have hlen : 1 ≤ s.workers_list.length := by
      cases hl : s.workers_list with
      | nil => exact absurd hl hne
      | cons a t => simp
    subst hs'
    refine ⟨hne, ?_⟩
    simp only [List.length_dropLast]
    omega

/-- C3 witness: from the reachable state with one idle worker, a client
request produces a dispatch and empties the queue. -/
theorem no_dispatch_without_idle_worker_witness :
    (BrokerState.mk 1 ["Worker-0"] 10 true).workers_list ≠ [] ∧
    (BrokerState.mk 0 [] 10 true).workers_list.length + 1 =
      (BrokerState.mk 1 ["Worker-0"] 10 true).workers_list.length :=
  no_dispatch_without_idle_worker
    (Reachable.next Reachable.init
      (show step initialState (.backendMsg ["Worker-0", "", "READY"]) =
        .ok (BrokerState.mk 1 ["Worker-0"] 10 true, []) from rfl))
    (show step (BrokerState.mk 1 ["Worker-0"] 10 true)
        (.frontendMsg ["Client-0", "", "HELLO"]) =
      .ok (BrokerState.mk 0 [] 10 true,
        [Send.toBackend ["Worker-0", "", "Client-0", "", "HELLO"]]) from rfl)
    (List.mem_singleton.mpr rfl)

/-- C7: at every reachable state under the worker protocol (each worker
sends a single READY at startup and then exactly one reply per dispatch it
received), every worker identity appears in the idle worker queue at most
once — the queue has no duplicates. -/
theorem idle_queue_no_duplicates {W : List String} {σ : SysState}
    (h : ValidReach W σ) :
    σ.broker.workers_list.Nodup ∧
    ∀ w, σ.broker.workers_list.count w ≤ 1 := by
  have inv := sysInv_of_validReach h
  have hcount : ∀ w, σ.broker.workers_list.count w ≤ 1 := by
    intro w
    have h1 := inv.count_eq w
    have h2 := inv.reply_le w
    have h3 := inv.ready_le w
    omega
  exact ⟨List.nodup_iff_count_le_one.mpr hcount, hcount⟩

/-- C7 witness: the invariant evaluated after one READY from Worker-0. -/
theorem idle_queue_no_duplicates_witness :
    (BrokerState.mk 1 ["Worker-0"] 10 true).workers_list.Nodup ∧
    ∀ w, (BrokerState.mk 1 ["Worker-0"] 10 true).workers_list.count w ≤ 1 :=
  idle_queue_no_duplicates
    (ValidReach.next (W := ["Worker-0", "Worker-1", "Worker-2"]) ValidReach.init
      (show eventOk ["Worker-0", "Worker-1", "Worker-2"] initialSys
          (.backendMsg ["Worker-0", "", "READY"]) from
        Or.inl ⟨"Worker-0", by simp, rfl, rfl⟩)
      (show sysStep initialSys (.backendMsg ["Worker-0", "", "READY"]) =
        .ok { broker := BrokerState.mk 1 ["Worker-0"] 10 true
              readySent := bump initialSys.readySent "Worker-0"
              replySent := initialSys.replySent
              dispatched := initialSys.dispatched } from rfl))

/-- C8: at every reachable state under the worker protocol with a fixed
set of `NBR_WORKERS` distinct workers, the idle worker queue never holds
more than `NBR_WORKERS` identities, and the assertion
`available_workers < NBR_WORKERS` checked before each append never fails:
whenever a protocol-respecting backend message is the next event, the
counter is strictly below `NBR_WORKERS`. -/
theorem idle_queue_bounded {W : List String} {σ : SysState}
    (_hnd : W.Nodup) (hlen : W.length = NBR_WORKERS) (h : ValidReach W σ) :
    σ.broker.workers_list.length ≤ NBR_WORKERS ∧
    ∀ m, eventOk W σ (.backendMsg m) →
      σ.broker.available_workers < (NBR_WORKERS : Int) := by
  have inv := sysInv_of_validReach h
  have hcount : ∀ w, σ.broker.workers_list.count w ≤ 1 := by
    intro w
    have h1 := inv.count_eq w
    have h2 := inv.reply_le w
    have h3 := inv.ready_le w
    omega
  have hnodup := List.nodup_iff_count_le_one.mpr hcount
  have hsub : σ.broker.workers_list ⊆ W := by
    intro x hx
    exact inv.mem_W x hx
  constructor
  · calc σ.broker.workers_list.length ≤ W.length := (hnodup.subperm hsub).length_le
      _ = NBR_WORKERS := hlen
  · intro m hok
    have hzero : ∃ w, w ∈ W ∧ σ.broker.workers_list.count w = 0 := by
      rcases hok with ⟨w, hwW, h0, -⟩ | ⟨w, c, r, hwW, -, hlt, -⟩
      · refine ⟨w, hwW, ?_⟩
        have h1 := inv.count_eq w
        have h2 := inv.reply_le w
        omega
      · refine ⟨w, hwW, ?_⟩
        have h1 := inv.count_eq w
        have h3 := inv.ready_le w
        omega
    obtain ⟨w, hwW, hcnt0⟩ := hzero
    have hnotmem : w ∉ σ.broker.workers_list := List.count_eq_zero.mp hcnt0
    have hsub' : σ.broker.workers_list ⊆ W.erase w := by
      intro x hx
      exact (List.mem_erase_of_ne (by rintro rfl; exact hnotmem hx)).mpr (hsub hx)
    have hle : σ.broker.workers_list.length ≤ (W.erase w).length :=
      (hnodup.subperm hsub').length_le
    have herase : (W.erase w).length = W.length - 1 := List.length_erase_of_mem hwW
    have hpos : 0 < NBR_WORKERS := by decide
    have hlt : σ.broker.workers_list.length < NBR_WORKERS := by omega
    rw [inv.counter_eq]
    exact_mod_cast hlt

/-- C8 witness: the bound evaluated after one READY from Worker-0. -/
theorem idle_queue_bounded_witness :
    (BrokerState.mk 1 ["Worker-0"] 10 true).workers_list.length ≤ NBR_WORKERS ∧
    ∀ m, eventOk ["Worker-0", "Worker-1", "Worker-2"]
        { broker := BrokerState.mk 1 ["Worker-0"] 10 true
          readySent := bump initialSys.readySent "Worker-0"
          replySent := initialSys.replySent
          dispatched := initialSys.dispatched } (.backendMsg m) →
      (BrokerState.mk 1 ["Worker-0"] 10 true).available_workers <
        (NBR_WORKERS : Int) :=
  idle_queue_bounded (by decide) (by decide)
    (ValidReach.next (W := ["Worker-0", "Worker-1", "Worker-2"]) ValidReach.init
      (show eventOk ["Worker-0", "Worker-1", "Worker-2"] initialSys
          (.backendMsg ["Worker-0", "", "READY"]) from
        Or.inl ⟨"Worker-0", by simp, rfl, rfl⟩)
      (show sysStep initialSys (.backendMsg ["Worker-0", "", "READY"]) =
        .ok { broker := BrokerState.mk 1 ["Worker-0"] 10 true
              readySent := bump initialSys.readySent "Worker-0"
              replySent := initialSys.replySent
              dispatched := initialSys.dispatched } from rfl))

/-- C1: every client request handled on the frontend while the idle worker
queue is non-empty pops the worker identity at the tail of the queue (the
most recently idled worker) and sends on the backend exactly the
five-frame message [worker identity, empty, client address, empty,
request]; in particular with queue [A, B, C] (C most recently idled) two
successive dispatches select C and then B. -/
theorem lru_dispatch_pops_tail :
    (∀ (s : BrokerState) (c r : String) (h : s.workers_list ≠ []),
      handleFrontend [c, "", r] s =
        .ok ({ s with available_workers := s.available_workers - 1
                      workers_list := s.workers_list.dropLast },
             [Send.toBackend [s.workers_list.getLast h, "", c, "", r]])) ∧
    (∀ (a cn : Int) (ru : Bool) (A B C c₁ r₁ c₂ r₂ : String),
      handleFrontend [c₁, "", r₁] (BrokerState.mk a [A, B, C] cn ru) =
        .ok (BrokerState.mk (a - 1) [A, B] cn ru,
             [Send.toBackend [C, "", c₁, "", r₁]]) ∧
      handleFrontend [c₂, "", r₂] (BrokerState.mk (a - 1) [A, B] cn ru) =
        .ok (BrokerState.mk (a - 1 - 1) [A] cn ru,
             [Send.toBackend [B, "", c₂, "", r₂]])) := by
  constructor
  · intro s c r h
    exact handleFrontend_eval s c r _ (List.getLast?_eq_getLast _ h)
  · intro a cn ru A B C c₁ r₁ c₂ r₂
    exact ⟨rfl, rfl⟩

/-- C1 witness: the pop evaluated on the queue [A, B, C]. -/
theorem lru_dispatch_pops_tail_witness :
    handleFrontend ["Client-0", "", "HELLO"] (BrokerState.mk 3 ["A", "B", "C"] 10 true) =
      .ok (BrokerState.mk 2 ["A", "B"] 10 true,
           [Send.toBackend ["C", "", "Client-0", "", "HELLO"]]) := by
  have h := lru_dispatch_pops_tail.1 (BrokerState.mk 3 ["A", "B", "C"] 10 true)
    "Client-0" "HELLO" (by simp)
  simpa using h

/-- C2: every well-formed backend message gets its worker identity
(frame 0) appended to the tail of the idle worker queue, whether frame 2 is
the READY token or a client address; a READY sends nothing, and a reply
sends exactly the three frames [client address, empty, reply payload]
(frame 4 of the backend message) on the frontend. -/
theorem backend_requeue_and_forward (s : BrokerState) (w c r : String)
    (hlt : s.available_workers < (NBR_WORKERS : Int)) :
    handleBackend [w, "", READY] s =
      .ok ({ s with available_workers := s.available_workers + 1
                    workers_list := s.workers_list ++ [w] }, []) ∧
    (c ≠ READY →
      handleBackend [w, "", c, "", r] s =
        .ok ({ s with available_workers := s.available_workers + 1
                      workers_list := s.workers_list ++ [w]
                      client_nbr := s.client_nbr - 1
                      running := if s.client_nbr - 1 = 0 then false
                                 else s.running },
             [Send.toFrontend [c, "", r]])) :=
  ⟨handleBackend_ready s w [] hlt, fun hc => handleBackend_reply s w c r hlt hc⟩

/-- C2 witness: both backend paths evaluated on concrete messages. -/
theorem backend_requeue_and_forward_witness :
    handleBackend ["Worker-1", "", "READY"] (BrokerState.mk 1 ["Worker-0"] 10 true) =
      .ok (BrokerState.mk 2 ["Worker-0", "Worker-1"] 10 true, []) ∧
    handleBackend ["Worker-1", "", "Client-3", "", "OK"]
        (BrokerState.mk 1 ["Worker-0"] 10 true) =
      .ok (BrokerState.mk 2 ["Worker-0", "Worker-1"] 9 true,
           [Send.toFrontend ["Client-3", "", "OK"]]) := by
  have h := backend_requeue_and_forward (BrokerState.mk 1 ["Worker-0"] 10 true)
    "Worker-1" "Client-3" "OK" (by simp [NBR_WORKERS])
  refine ⟨by simpa using h.1, ?_⟩
  have h2 := h.2 (by simp [READY])
  simpa using h2

/-- C10: a backend message whose third frame equals the READY bytes is
treated as a readiness announcement purely on that comparison — the worker
is appended, nothing is sent and the reply counter and running flag are
untouched — no matter what trailing frames follow, including a five-frame
reply whose client-address frame happens to be the READY bytes. -/
theorem ready_discrimination_by_frame2 (s : BrokerState) (w : String)
    (rest : List String) (hlt : s.available_workers < (NBR_WORKERS : Int)) :
    handleBackend (w :: "" :: READY :: rest) s =
      .ok ({ s with available_workers := s.available_workers + 1
                    workers_list := s.workers_list ++ [w] }, []) :=
  handleBackend_ready s w rest hlt

/-- C10 witness: a five-frame reply whose client-address frame is the
READY bytes is swallowed as a readiness announcement: nothing is sent and
the reply counter stays at 10. -/
theorem ready_discrimination_by_frame2_witness :
    handleBackend ["Worker-0", "", "READY", "", "OK"]
        (BrokerState.mk 0 [] 10 true) =
      .ok (BrokerState.mk 1 ["Worker-0"] 10 true, []) := by
  have h := ready_discrimination_by_frame2 (BrokerState.mk 0 [] 10 true)
    "Worker-0" ["", "OK"] (by simp [NBR_WORKERS])
  simpa using h

/-- C4 (the code refutes the claim): the poll set registered by the source
is constant — it contains the frontend socket even in the initial state,
whose idle worker queue is empty; membership is never recomputed from the
queue. -/
theorem frontend_always_in_poll_set :
    initialState.workers_list = [] ∧
    Socket.frontend ∈ pollSet initialState ∧
    pollSet initialState = pollSet (BrokerState.mk 3 ["A", "B", "C"] 10 true) := by
  refine ⟨rfl, ?_, rfl⟩
  simp [pollSet]

/-- Counter behaviour of a successful backend branch: either nothing was
sent and the reply counter and flag are untouched (READY path), or exactly
one three-frame reply was sent, the counter dropped by one, and the loop
broke out exactly when it reached zero. -/
theorem handleBackend_ok_counter {m : List String} {s s' : BrokerState}
    {outs : List Send} (h : handleBackend m s = .ok (s', outs)) :
    (outs = [] ∧ s'.client_nbr = s.client_nbr ∧ s'.running = s.running) ∨
    (∃ c r, outs = [Send.toFrontend [c, "", r]] ∧
      s'.client_nbr = s.client_nbr - 1 ∧
      s'.running = (if s.client_nbr - 1 = 0 then false else s.running)) := by
  unfold handleBackend at h
  split at h
  case isFalse => exact absurd h (by simp)
  split at h
  · exact absurd h (by simp)
  split at h
  · exact absurd h (by simp)
  split at h
  case isFalse => exact absurd h (by simp)
  split at h
  · exact absurd h (by simp)
  rename_i client_addr _
  split at h
  case isTrue =>
    split at h
    · exact absurd h (by simp)
    split at h
    case isFalse => exact absurd h (by simp)
    split at h
    · exact absurd h (by simp)
    rename_i reply _
    injection h with h
    injection h with hA hB
    subst hA; subst hB
    exact Or.inr ⟨client_addr, reply, rfl, rfl, rfl⟩
  case isFalse =>
    injection h with h
    injection h with hA hB
    subst hA; subst hB
    exact Or.inl ⟨rfl, rfl, rfl⟩

/-- The number of frontend sends (forwarded replies) among a step's
outputs. -/
def countReplies (outs : List Send) : Nat :=
  (outs.filter (fun o => match o with
    | .toFrontend _ => true
    | .toBackend _ => false)).length

/-- C5: in bounded mode the reply counter starts at `NBR_CLIENTS = 10`,
drops by exactly one per reply forwarded to the frontend (and only then),
the loop exits at the very step that forwards the final expected reply,
and once it has exited no backend or frontend message is processed. -/
theorem bounded_mode_termination :
    initialState.client_nbr = (NBR_CLIENTS : Int) ∧
    NBR_CLIENTS = 10 ∧
    (∀ (s : BrokerState) (e : Event) (s' : BrokerState) (outs : List Send),
      step s e = .ok (s', outs) →
      s'.client_nbr = s.client_nbr - (countReplies outs : Int) ∧
      countReplies outs ≤ 1) ∧
    (∀ (s : BrokerState) (e : Event) (s' : BrokerState) (outs : List Send)
      (f : List String),
      step s e = .ok (s', outs) → Send.toFrontend f ∈ outs →
      s.client_nbr = 1 → s'.client_nbr = 0 ∧ s'.running = false) ∧
    (∀ (s : BrokerState) (e : Event), s.running = false →
      step s e = .ok (s, [])) := by
  refine ⟨rfl, rfl, ?_, ?_, ?_⟩
  · intro s e s' outs hstep
    by_cases hrun : s.running
    case neg =>
      rw [step_done (by simpa using hrun)] at hstep
      injection hstep with hstep
      injection hstep with hA hB
      subst hA; subst hB
      simp [countReplies]
    cases e with
    | backendMsg m =>
      rw [step_backend hrun] at hstep
      rcases handleBackend_ok_counter hstep with ⟨ho, hcn, -⟩ | ⟨c, r, ho, hcn, -⟩
      · subst ho; simp [countReplies, hcn]
      · subst ho; simp [countReplies, hcn]
    | frontendMsg m =>
      by_cases hpos : 0 < s.available_workers
      case neg =>
        rw [step_frontend_nonpos hrun hpos] at hstep
        injection hstep with hstep
        injection hstep with hA hB
        subst hA; subst hB
        simp [countReplies]
      rw [step_frontend_pos hrun hpos] at hstep
      obtain ⟨c, req, w, -, -, hs', houts⟩ := handleFrontend_ok hstep
      subst hs'; subst houts
      simp [countReplies]
  · intro s e s' outs f hstep hmem hone
    by_cases hrun : s.running
    case neg =>
      rw [step_done (by simpa using hrun)] at hstep
      injection hstep with hstep
      injection hstep with hA hB
      subst hB
      simp at hmem
    cases e with
    | backendMsg m =>
      rw [step_backend hrun] at hstep
      rcases handleBackend_ok_counter hstep with ⟨ho, -, -⟩ | ⟨c, r, ho, hcn, hru⟩
      · subst ho; simp at hmem
      · refine ⟨by omega, ?_⟩
        rw [hru, hone]
        simp
    | frontendMsg m =>
      by_cases hpos : 0 < s.available_workers
      case neg =>
        rw [step_frontend_nonpos hrun hpos] at hstep
        injection hstep with hstep
        injection hstep with hA hB
        subst hB
        simp at hmem
      rw [step_frontend_pos hrun hpos] at hstep
      obtain ⟨c, req, w, -, -, -, houts⟩ := handleFrontend_ok hstep
      subst houts
      simp at hmem
  · intro s e hrun
    exact step_done hrun

/-- C5 witness: processing the last expected reply drops the counter to
zero and stops the loop; a further message is then left unprocessed. -/
theorem bounded_mode_termination_witness :
    ((BrokerState.mk 1 ["Worker-0"] 0 false).client_nbr = 0 ∧
      (BrokerState.mk 1 ["Worker-0"] 0 false).running = false) ∧
    step (BrokerState.mk 1 ["Worker-0"] 0 false)
        (.backendMsg ["Worker-1", "", "READY"]) =
      .ok (BrokerState.mk 1 ["Worker-0"] 0 false, []) :=
  ⟨bounded_mode_termination.2.2.2.1 (BrokerState.mk 0 [] 1 true)
      (.backendMsg ["Worker-0", "", "Client-0", "", "OK"])
      (BrokerState.mk 1 ["Worker-0"] 0 false)
      [Send.toFrontend ["Client-0", "", "OK"]] ["Client-0", "", "OK"]
      rfl (List.mem_singleton.mpr rfl) rfl,
    bounded_mode_termination.2.2.2.2 (BrokerState.mk 1 ["Worker-0"] 0 false)
      (.backendMsg ["Worker-1", "", "READY"]) rfl⟩

/-- Whether a handler run ended in an error (a raised Python exception). -/
def isErr {α : Type} (r : Except BrokerError α) : Bool :=
  match r with
  | .error _ => true
  | .ok _ => false

/-- Well-formedness of a backend message per the spec's wire protocol:
exactly three frames `[worker, empty, READY]`, or exactly five frames
`[worker, empty, client, empty, reply]` with a non-READY client address. -/
def wellFormedBackend (m : List String) : Bool :=
  match m with
  | [_, e, c] => e == "" && c == READY
  | [_, e, c, e2, _] => e == "" && c != READY && e2 == ""
  | _ => false

/-- C6 counterexample: the four-frame backend message
`["Worker-0", "", "READY", "junk"]` has a wrong frame count (a READY
announcement has three frames), yet the code raises no error and processes
it as a valid READY: the worker is appended and nothing is sent. -/
theorem malformed_excess_frames_accepted :
    wellFormedBackend ["Worker-0", "", "READY", "junk"] = false ∧
    handleBackend ["Worker-0", "", "READY", "junk"] initialState =
      .ok (BrokerState.mk 1 ["Worker-0"] 10 true, []) :=
  ⟨rfl, rfl⟩

/-- C6 amended: a received message with too few frames for its path, a
non-empty frame where an empty delimiter is required, or a frontend frame
count other than three makes the router fail fast with a diagnosable
error; only backend messages carrying extra trailing frames beyond the
expected count escape rejection. -/
theorem protocol_violations_fail_fast :
    (∀ (m : List String) (s : BrokerState), m.length < 3 →
      isErr (handleBackend m s) = true) ∧
    (∀ (m : List String) (s : BrokerState) (e1 : String),
      m.get? 1 = some e1 → e1 ≠ "" → isErr (handleBackend m s) = true) ∧
    (∀ (m : List String) (s : BrokerState) (c : String),
      m.get? 2 = some c → c ≠ READY → m.length < 5 →
      isErr (handleBackend m s) = true) ∧
    (∀ (m : List String) (s : BrokerState) (c e2 : String),
      m.get? 2 = some c → c ≠ READY → m.get? 3 = some e2 → e2 ≠ "" →
      isErr (handleBackend m s) = true) ∧
    (∀ (m : List String) (s : BrokerState), m.length ≠ 3 →
      isErr (handleFrontend m s) = true) ∧
    (∀ (a e r : String) (s : BrokerState), e ≠ "" →
      isErr (handleFrontend [a, e, r] s) = true) := by
  refine ⟨?_, ?_, ?_, ?_, ?_, ?_⟩
  · intro m s hlen
    rcases m with _ | ⟨a, _ | ⟨b, _ | ⟨c, t⟩⟩⟩
    · unfold handleBackend
      repeat' split
      all_goals simp_all [isErr]
    · unfold handleBackend
      repeat' split
      all_goals simp_all [isErr]
    · unfold handleBackend
      repeat' split
      all_goals simp_all [isErr]
    · simp only [List.length_cons] at hlen
      omega
  · intro m s e1 he1 hne
    unfold handleBackend
    repeat' split
    all_goals simp_all [isErr]
  · intro m s c hc hcr hlen
    unfold handleBackend
    repeat' split
    all_goals try simp_all [isErr]
    all_goals rename_i heq
    all_goals rcases List.getElem?_eq_some.mp heq with ⟨hlt, -⟩
    all_goals omega
  · intro m s c e2 hc hcr he2 hne
    unfold handleBackend
    repeat' split
    all_goals simp_all [isErr]
  · intro m s hlen
    rcases m with _ | ⟨a, _ | ⟨b, _ | ⟨c, _ | ⟨d, t⟩⟩⟩⟩ <;>
      simp_all [handleFrontend, isErr]
  · intro a e r s hne
    simp [handleFrontend, isErr, hne]

/-- C6 amended witness: a backend message with a non-empty delimiter and a
frontend message with a wrong frame count are both rejected, evaluated. -/
theorem protocol_violations_fail_fast_witness :
    isErr (handleBackend ["Worker-0", "oops", "READY"] initialState) = true ∧
    isErr (handleFrontend ["Client-0", ""] initialState) = true :=
  ⟨protocol_violations_fail_fast.2.1 ["Worker-0", "oops", "READY"] initialState
      "oops" rfl (by simp),
    protocol_violations_fail_fast.2.2.2.2.1 ["Client-0", ""] initialState
      (by simp)⟩

end LbBroker
